import Mathlib

/-!
Verification of the ai-mentor retrieval engine.

Shallow embedding of the RAG core of the repository:
* `backend/rag/vector_store.py` — `VectorStore.add_chunks`,
  `VectorStore.similarity_search`, `VectorStore.hybrid_search`,
  `VectorStore.get_knowledge_base_by_id` and the nested `cosine_similarity`;
* `backend/rag/text_splitter.py` — `TextSplitter.split_long_text`;
* `backend/rag/embedding.py` — `EmbeddingModel.embed_documents`.

Python floats are modelled by real numbers, the SQLAlchemy tables by lists of
row structures, the Redis cache by an explicit parameter, and the external
sentence-transformer by an explicit function argument `embed`.
-/

namespace AiMentor

/-! ## Vector arithmetic (`cosine_similarity`, vector_store.py lines 204-213) -/

/-- The dot product `sum(v1 * v2 for v1, v2 in zip(vec1, vec2))`. -/
noncomputable def dotList (vec1 vec2 : List ℝ) : ℝ :=
  ((vec1.zip vec2).map fun p => p.1 * p.2).sum

/-- The norm `sum(v ** 2 for v in vec) ** 0.5` (the sum of squares is nonnegative, so
`** 0.5` is the real square root). -/
noncomputable def listNorm (vec : List ℝ) : ℝ :=
  Real.sqrt ((vec.map fun v => v ^ 2).sum)

/-- The nested `cosine_similarity(vec1, vec2)` of `similarity_search` and
`hybrid_search`: an empty argument (`if not vec1 or not vec2`) or a zero norm
returns `0`, otherwise the normalized dot product. -/
noncomputable def cosine_similarity (vec1 vec2 : List ℝ) : ℝ :=
  if vec1.isEmpty || vec2.isEmpty then 0
  else if listNorm vec1 = 0 ∨ listNorm vec2 = 0 then 0
  else dotList vec1 vec2 / (listNorm vec1 * listNorm vec2)

/-! ## Data model (the SQLAlchemy tables of vector_store.py) -/

/-- A row of the `knowledge_bases` table. -/
structure KnowledgeBaseRow where
  id : Nat
  user_id : Nat
  name : String
  domain : String
  sub_domain : Option String
  created_at : Nat
  deriving Repr, DecidableEq

/-- A row of the `chunks` table.  `chunk_metadata` is an opaque JSON value,
modelled as a string; `created_at` is an abstract timestamp. -/
structure ChunkRow where
  id : Nat
  kb_id : Nat
  document_id : Option Nat
  content : String
  chunk_metadata : String
  embedding : List ℝ
  created_at : Nat

/-- One element of the `chunks` argument of `add_chunks`: a dict from which
the code reads `chunk.get("chunk_content", "")` and `chunk.get("metadata", {})`
(the defaults are already applied). -/
structure ChunkInput where
  chunk_content : String
  metadata : String

/-- The database state seen by a `VectorStore`: the two tables the claims
touch, plus the autoincrement counter for chunk primary keys. -/
structure DBState where
  kbs : List KnowledgeBaseRow
  chunks : List ChunkRow
  nextChunkId : Nat

/-- The value `settings.VECTOR_DIMENSION` from config.py (the configured dimension of
the embedding model `all-MiniLM-L6-v2`). -/
def VECTOR_DIMENSION : Nat := 384

/-- The loop body of `add_chunks`: one `Chunk(...)` row per zipped
`(chunk, emb)` pair, primary keys assigned by autoincrement. -/
def mkChunkRows (kb_id : Nat) (document_id : Option Nat) (now : Nat) :
    Nat → List (ChunkInput × List ℝ) → List ChunkRow
  | _, [] => []
  | nextId, (c, e) :: rest =>
    { id := nextId, kb_id := kb_id, document_id := document_id,
      content := c.chunk_content, chunk_metadata := c.metadata,
      embedding := e, created_at := now } :: mkChunkRows kb_id document_id now (nextId + 1) rest

/-- Model of `VectorStore.add_chunks(kb_id, chunks, embeddings, document_id)`
(vector_store.py lines 148-175): `for i, (chunk, emb) in enumerate(zip(chunks,
embeddings))` adds one row per pair and commits.  The function performs no
validation of any kind; it cannot fail (it is total). -/
def add_chunks (st : DBState) (kb_id : Nat) (chunks : List ChunkInput)
    (embeddings : List (List ℝ)) (document_id : Option Nat) (now : Nat) : DBState :=
  let rows := mkChunkRows kb_id document_id now st.nextChunkId (chunks.zip embeddings)
  { st with
    chunks := st.chunks ++ rows
    nextChunkId := st.nextChunkId + rows.length }

/-- Model of `VectorStore.get_knowledge_base_by_id(kb_id)` (vector_store.py lines
311-317): `db.query(KnowledgeBase).filter(KnowledgeBase.id == kb_id).first()`.
`first()` is `None` on an empty result set, so the return type is an Option
and an unknown id yields `none`, not an error. -/
def get_knowledge_base_by_id (st : DBState) (kb_id : Nat) : Option KnowledgeBaseRow :=
  (st.kbs.filter fun r => r.id == kb_id).head?

/-- The dict returned by the search operations: the chunk's columns, with the
temporary `similarity` / `score` entry already popped. -/
structure ChunkResult where
  id : Nat
  kb_id : Nat
  document_id : Option Nat
  content : String
  metadata : String
  embedding : List ℝ

/-- Building the result dict from a chunk row (vector_store.py lines 227-235). -/
def chunkToResult (c : ChunkRow) : ChunkResult :=
  { id := c.id, kb_id := c.kb_id, document_id := c.document_id,
    content := c.content, metadata := c.chunk_metadata, embedding := c.embedding }

/-- Steps 3-4 of `similarity_search` (vector_store.py lines 197-248): full scan
of the knowledge base's chunks, cosine score per chunk, `results.sort(key=...,
reverse=True)` (Python's sort is stable; descending, ties in retrieval order),
`results[:top_k]`, and the `similarity` entry popped.  The (dict, score) pairs
of the code are modelled as pairs. -/
noncomputable def simSearchCore (st : DBState) (query_vector : List ℝ)
    (kb_id : Nat) (top_k : Nat) : List ChunkResult :=
  let chunks := st.chunks.filter fun c => c.kb_id == kb_id
  let results := chunks.map fun c =>
    (chunkToResult c, cosine_similarity query_vector c.embedding)
  let sorted := List.insertionSort (fun a b : ChunkResult × ℝ => b.2 ≤ a.2) results
  (sorted.take top_k).map fun p => p.1

/-- Model of `VectorStore.similarity_search(query_vector, kb_id, top_k)` (vector_store.py
lines 177-250).  `cached` is the value the Redis lookup for this query's cache
key produced (`None` on a miss); `if cached_result:` returns it only when it is
truthy, i.e. a non-empty list; otherwise the scan runs (the write-back to Redis
is a cache effect with no bearing on the returned value). -/
noncomputable def similarity_search (cached : Option (List ChunkResult))
    (st : DBState) (query_vector : List ℝ) (kb_id : Nat) (top_k : Nat) : List ChunkResult :=
  match cached with
  | some r => if r.isEmpty then simSearchCore st query_vector kb_id top_k else r
  | none => simSearchCore st query_vector kb_id top_k

/-- Lowercasing `content.lower()`, character by character. -/
def lowerList (s : String) : List Char :=
  s.toList.map Char.toLower

/-- Python's substring test `needle in hay` on character lists
(`"" in s` is `True`). -/
def containsSub : List Char → List Char → Bool
  | needle, [] => needle.isEmpty
  | needle, c :: rest => needle.isPrefixOf (c :: rest) || containsSub needle rest

/-- The test `keyword.lower() in chunk.content.lower()` (vector_store.py line 284). -/
def containsCI (keyword content : String) : Bool :=
  containsSub (lowerList keyword) (lowerList content)

/-- Model of `VectorStore.hybrid_search(query_vector, keyword, kb_id, top_k)`
(vector_store.py lines 252-309): full scan, per-chunk score
`vector_similarity * 0.7 + keyword_score * 0.3` with
`keyword_score = 1.0 if keyword.lower() in chunk.content.lower() else 0.0`,
stable descending sort, `results[:top_k]`, `score` entry popped.
No Redis cache on this path. -/
noncomputable def hybrid_search (st : DBState) (query_vector : List ℝ)
    (keyword : String) (kb_id : Nat) (top_k : Nat) : List ChunkResult :=
  let all_chunks := st.chunks.filter fun c => c.kb_id == kb_id
  let results := all_chunks.map fun c =>
    (chunkToResult c,
      cosine_similarity query_vector c.embedding * 0.7 +
        (if containsCI keyword c.content then (1 : ℝ) else 0) * 0.3)
  let sorted := List.insertionSort (fun a b : ChunkResult × ℝ => b.2 ≤ a.2) results
  (sorted.take top_k).map fun p => p.1

/-- The spec's hybrid ranking formula, written from the spec's words
(§4.4: `score = 0.7 × cosineSimilarity + 0.3 × keywordScore`, with
`keywordScore` 1.0 exactly when the keyword is a case-insensitive substring of
the chunk content): the second side of the refinement comparison for the
hybrid-search claim. -/
noncomputable def hybridScoreSpec (query_vector : List ℝ) (keyword : String)
    (c : ChunkRow) : ℝ :=
  0.7 * cosine_similarity query_vector c.embedding +
    0.3 * (if containsCI keyword c.content then (1 : ℝ) else 0)

/-- The spec's hybrid score read off a returned result dict (the result keeps
the chunk's content and embedding, so the score is recomputable from it). -/
noncomputable def resultHybridScore (query_vector : List ℝ) (keyword : String)
    (r : ChunkResult) : ℝ :=
  0.7 * cosine_similarity query_vector r.embedding +
    0.3 * (if containsCI keyword r.content then (1 : ℝ) else 0)

/-- The cosine score read off a returned result dict. -/
noncomputable def resultSimScore (query_vector : List ℝ) (r : ChunkResult) : ℝ :=
  cosine_similarity query_vector r.embedding

/-! ## The text splitter (`TextSplitter.split_long_text`, text_splitter.py 39-73)

Texts are character lists.  `re.split(r'\n\s*\n', ...)` is modelled by a direct
leftmost-greedy matcher for the pattern: at a `'\n'`, the greedy `\s*` followed
by `\n` consumes through the last newline of the maximal whitespace run that
follows, if that run contains one. -/

/-- Membership in Python's `\s` class on the ASCII range (`str.strip()` uses the same class). -/
def isPySpace (c : Char) : Bool :=
  c = ' ' || c = '\t' || c = '\n' || c = '\r' || c = '\x0b' || c = '\x0c'

/-- Model of `text.strip()`. -/
def pyStrip (l : List Char) : List Char :=
  ((l.dropWhile isPySpace).reverse.dropWhile isPySpace).reverse

/-- Index of the last newline in a list, if any. -/
def lastNewlinePos : List Char → Option Nat
  | [] => none
  | c :: rest =>
    match lastNewlinePos rest with
    | some k => some (k + 1)
    | none => if c = '\n' then some 0 else none

/-- Scanner for `re.split(r'\n\s*\n', text)`.  The accumulator holds the
current piece reversed; `fuel` bounds the scan by the input length (it never
runs out, the remaining input shrinks at every step), keeping the recursion
structural so that concrete inputs evaluate by `decide` / `rfl`. -/
def splitBlankGo : Nat → List Char → List Char → List (List Char)
  | _, acc, [] => [acc.reverse]
  | 0, acc, rest => [acc.reverse ++ rest]
  | fuel + 1, acc, c :: rest =>
    if c = '\n' then
      match lastNewlinePos (rest.takeWhile isPySpace) with
      | some k => acc.reverse :: splitBlankGo fuel [] (rest.drop (k + 1))
      | none => splitBlankGo fuel (c :: acc) rest
    else splitBlankGo fuel (c :: acc) rest

/-- Model of `re.split` at the blank-line pattern: split on leftmost-greedy blank-line
separators (the result is `[""]` on the empty string, as in Python). -/
def splitBlank (l : List Char) : List (List Char) :=
  splitBlankGo l.length [] l

/-- The paragraph loop of `split_long_text` (text_splitter.py lines 46-71),
with the recursive call on an over-long paragraph passed in as `recurse`.
State: `chunks` so far and the accumulated `current_chunk`.  The final
`if current_chunk:` append is the `[]` case. -/
def goParas (recurse : List Char → Option (List (List Char))) (maxLength : Nat) :
    List (List Char) → List (List Char) → List Char → Option (List (List Char))
  | [], chunks, current =>
    some (chunks ++ if current.isEmpty then [] else [pyStrip current])
  | p :: ps, chunks, current =>
    let para := pyStrip p
    if para.isEmpty then goParas recurse maxLength ps chunks current
    else if maxLength < para.length then
      let chunks1 := if current.isEmpty then chunks else chunks ++ [pyStrip current]
      match recurse para with
      | none => none
      | some subs => goParas recurse maxLength ps (chunks1 ++ subs) []
    else if maxLength < current.length + para.length + 2 then
      goParas recurse maxLength ps (chunks ++ [pyStrip current]) para
    else
      goParas recurse maxLength ps chunks
        (if current.isEmpty then para else current ++ '\n' :: '\n' :: para)

/-- Model of `TextSplitter.split_long_text(text, max_length)` with an explicit fuel for
the unbounded self-recursion on over-long paragraphs (`sub_chunks =
self.split_long_text(para, max_length)`, line 57).  `none` means the given
recursion depth was exhausted without producing a result. -/
def splitLongTextAux : Nat → Nat → List Char → Option (List (List Char))
  | 0, _, _ => none
  | fuel + 1, maxLength, text =>
    goParas (splitLongTextAux fuel maxLength) maxLength (splitBlank (pyStrip text)) [] []

/-- The splitter `split_long_text` on a string, at recursion depth `fuel`. -/
def split_long_text (fuel : Nat) (text : String) (max_length : Nat) :
    Option (List (List Char)) :=
  splitLongTextAux fuel max_length text.toList

/-! ## The embedding cache (`EmbeddingModel.embed_documents`, embedding.py 149-208)

The deterministic external capability is an explicit argument
`embed : String → List ℝ`; the Redis cache is a map from text to the stored
vector (the md5 cache key is injective in the text for a fixed model).  Each
call returns the embeddings together with the list of texts actually sent to
`self._model.encode` (the capability invocations). -/

/-- One Redis state: `none` is a miss, `some v` the stored vector. -/
def EmbCache : Type := String → Option (List ℝ)

/-- The cache-lookup loop (embedding.py lines 169-181): cached embeddings are
appended to `batch_embeddings` in order; misses are recorded as
`(uncached_index, text)` pairs, also in order.  `if cached_embedding:` treats a
stored empty list as a miss (Python truthiness). -/
def lookupLoop (cache : EmbCache) : Nat → List String →
    List (List ℝ) × List (Nat × String)
  | _, [] => ([], [])
  | j, t :: ts =>
    let rest := lookupLoop cache (j + 1) ts
    match cache t with
    | some v => if v.isEmpty then (rest.1, (j, t) :: rest.2) else (v :: rest.1, rest.2)
    | none => (rest.1, (j, t) :: rest.2)

/-- The merge loop (embedding.py lines 194-200):
`batch_embeddings.insert(idx, embedding_list)` for each uncached index in
ascending order.  (Every index reached is at most the current length, so
`List.insertIdx`, which is the identity past the end, agrees with Python's
clamping `insert`.) -/
def mergeLoop (news : List (Nat × List ℝ)) (base : List (List ℝ)) : List (List ℝ) :=
  news.foldl (fun acc p => acc.insertIdx p.1 p.2) base

/-- One iteration of the batch loop of `embed_documents` (lines 165-206):
look up the batch in the cache, `encode` the uncached texts if any
(`new_embeddings = self._model.encode(uncached_texts, ...)`), merge them back
by index, and write them to the cache.  Returns the batch's embeddings, the
updated cache, and the texts sent to the capability. -/
def processBatch (embed : String → List ℝ) (cache : EmbCache)
    (batch : List String) : List (List ℝ) × EmbCache × List String :=
  let looked := lookupLoop cache 0 batch
  let uncached := looked.2.map fun p => p.2
  if uncached.isEmpty then (looked.1, cache, [])
  else
    let newEmbs := uncached.map embed
    let merged := mergeLoop ((looked.2.map fun p => p.1).zip newEmbs) looked.1
    let cache1 : EmbCache := fun t => if t ∈ uncached then some (embed t) else cache t
    (merged, cache1, uncached)

/-- The loop `for i in range(0, len(texts), batch_size)` with `batch_size = 32`:
the list of batches.  The fuel is the input length, which the recursion never
exhausts (each step drops at least one element); it keeps the definition
structural. -/
def toBatchesGo : Nat → List String → List (List String)
  | _, [] => []
  | 0, l => [l]
  | fuel + 1, l => l.take 32 :: toBatchesGo fuel (l.drop 32)

/-- The batches of 32 texts processed by `embed_documents`. -/
def toBatches (l : List String) : List (List String) :=
  toBatchesGo l.length l

/-- The batch loop, threading the cache: `all_embeddings.extend(batch_embeddings)`
per batch.  Also accumulates the texts sent to the capability. -/
def embedDocsLoop (embed : String → List ℝ) :
    List (List String) → EmbCache → List (List ℝ) × List String
  | [], _ => ([], [])
  | b :: bs, cache =>
    let step := processBatch embed cache b
    let rest := embedDocsLoop embed bs step.2.1
    (step.1 ++ rest.1, step.2.2 ++ rest.2)

/-- Model of `EmbeddingModel.embed_documents(texts)` (embedding.py lines 149-208):
empty input short-circuits (`if not texts: return []`); otherwise the texts
are processed in batches of 32 against the cache.  First component: the
returned `all_embeddings`; second: every text sent to the external capability
during the call. -/
def embed_documents (embed : String → List ℝ) (cache : EmbCache)
    (texts : List String) : List (List ℝ) × List String :=
  if texts.isEmpty then ([], [])
  else embedDocsLoop embed (toBatches texts) cache

/-! ## Helper lemmas -/

theorem mkChunkRows_length (kb_id : Nat) (document_id : Option Nat) (now : Nat) :
    ∀ (nextId : Nat) (pairs : List (ChunkInput × List ℝ)),
      (mkChunkRows kb_id document_id now nextId pairs).length = pairs.length
  | _, [] => rfl
  | nextId, _ :: rest => by
    simp [mkChunkRows, mkChunkRows_length kb_id document_id now (nextId + 1) rest]

theorem mkChunkRows_map_content (kb_id : Nat) (document_id : Option Nat) (now : Nat) :
    ∀ (nextId : Nat) (pairs : List (ChunkInput × List ℝ)),
      (mkChunkRows kb_id document_id now nextId pairs).map (fun c => c.content)
        = pairs.map fun p => p.1.chunk_content
  | _, [] => rfl
  | nextId, _ :: rest => by
    simp [mkChunkRows, mkChunkRows_map_content kb_id document_id now (nextId + 1) rest]

theorem mkChunkRows_map_embedding (kb_id : Nat) (document_id : Option Nat) (now : Nat) :
    ∀ (nextId : Nat) (pairs : List (ChunkInput × List ℝ)),
      (mkChunkRows kb_id document_id now nextId pairs).map (fun c => c.embedding)
        = pairs.map fun p => p.2
  | _, [] => rfl
  | nextId, _ :: rest => by
    simp [mkChunkRows, mkChunkRows_map_embedding kb_id document_id now (nextId + 1) rest]

theorem zip_map_fst_take {α β γ : Type} (f : α → γ) :
    ∀ (a : List α) (b : List β), ((a.zip b).map fun p => f p.1) = (a.take b.length).map f
  | [], _ => by simp
  | _ :: _, [] => by simp
  | x :: xs, y :: ys => by simp [zip_map_fst_take f xs ys]

theorem zip_map_snd_take {α β γ : Type} (f : β → γ) :
    ∀ (a : List α) (b : List β), ((a.zip b).map fun p => f p.2) = (b.take a.length).map f
  | [], _ => by simp
  | _ :: _, [] => by simp
  | x :: xs, y :: ys => by simp [zip_map_snd_take f xs ys]

/-! ## Claim theorems -/

/-- C9: the `cosine_similarity` helper used by `similarity_search` and
`hybrid_search` is total: whenever either vector's norm is zero (in particular
for an empty vector, whose norm is `sqrt 0 = 0`) it returns `0`; and on every
input it either returns `0` without dividing, or returns the normalized dot
product with a provably nonzero divisor. -/
theorem cosine_similarity_total (vec1 vec2 : List ℝ) :
    ((listNorm vec1 = 0 ∨ listNorm vec2 = 0) → cosine_similarity vec1 vec2 = 0)
    ∧ (cosine_similarity vec1 vec2 = 0 ∨
        (listNorm vec1 * listNorm vec2 ≠ 0 ∧
          cosine_similarity vec1 vec2
            = dotList vec1 vec2 / (listNorm vec1 * listNorm vec2))) := by
  unfold cosine_similarity
  by_cases h1 : vec1.isEmpty || vec2.isEmpty
  · simp [h1]
  · rw [if_neg (by simp [h1])]
    by_cases h2 : listNorm vec1 = 0 ∨ listNorm vec2 = 0
    · simp [h2]
    · rw [if_neg h2]
      push_neg at h2
      refine ⟨fun h => absurd h (by push_neg; exact h2), Or.inr ⟨mul_ne_zero h2.1 h2.2, rfl⟩⟩

/-- Witness for C9 at a concrete input: the zero vector `[0, 0]` has norm `0`,
so its similarity with `[1, 2]` is `0`. -/
theorem cosine_similarity_total_witness :
    cosine_similarity [(0 : ℝ), 0] [(1 : ℝ), 2] = 0 :=
  (cosine_similarity_total [(0 : ℝ), 0] [(1 : ℝ), 2]).1
    (Or.inl (by simp [listNorm]))

/-- C1 counterexample: the claim says a vector whose length differs from
the configured dimension makes `add_chunks` fail with a `ValidationError` and
persist nothing.  The code has no validation: inserting a single chunk with
the 1-dimensional vector `[1]` (`1 ≠ VECTOR_DIMENSION = 384`) into an empty
store succeeds and persists exactly that chunk. -/
theorem add_chunks_no_dimension_check_cex :
    ((add_chunks ⟨[⟨1, 1, "kb", "it", none, 0⟩], [], 1⟩ 1
        [⟨"hello", "m"⟩] [[(1 : ℝ)]] none 0).chunks.map fun c => c.embedding.length) = [1]
    ∧ (1 : Nat) ≠ VECTOR_DIMENSION := by
  exact ⟨rfl, by decide⟩

/-- C1 amended: `add_chunks` performs no dimension validation: the call
never fails, and even when some vector's length differs from the configured
`VECTOR_DIMENSION`, every zipped chunk/vector pair is persisted. -/
theorem add_chunks_persists_regardless (st : DBState) (kb_id : Nat)
    (chunks : List ChunkInput) (embeddings : List (List ℝ))
    (document_id : Option Nat) (now : Nat)
    (h : ∃ e ∈ embeddings, e.length ≠ VECTOR_DIMENSION) :
    (add_chunks st kb_id chunks embeddings document_id now).chunks.length
      = st.chunks.length + min chunks.length embeddings.length := by
  simp [add_chunks, mkChunkRows_length, List.length_zip]

/-- Witness for the amended C1: a concrete call with a wrong-length vector
persists its pair. -/
theorem add_chunks_persists_regardless_witness :
    (add_chunks ⟨[], [], 0⟩ 7 [⟨"a", "m"⟩, ⟨"b", "m"⟩] [[(2 : ℝ)]] none 3).chunks.length
      = 0 + min 2 1 :=
  add_chunks_persists_regardless ⟨[], [], 0⟩ 7 [⟨"a", "m"⟩, ⟨"b", "m"⟩] [[(2 : ℝ)]] none 3
    ⟨[(2 : ℝ)], by simp, by decide⟩

/-- C10: when the `chunks` and `embeddings` lists have different lengths,
`add_chunks` raises no error (it is a total function) and silently persists
exactly the first `min` pairs: the new rows' contents are the first
`len(embeddings)` chunk contents, and the new rows' vectors are the first
`len(chunks)` embeddings — the unpaired remainder is dropped by `zip`. -/
theorem add_chunks_length_mismatch (st : DBState) (kb_id : Nat)
    (chunks : List ChunkInput) (embeddings : List (List ℝ))
    (document_id : Option Nat) (now : Nat)
    (h : chunks.length ≠ embeddings.length) :
    (add_chunks st kb_id chunks embeddings document_id now).chunks.length
        = st.chunks.length + min chunks.length embeddings.length
    ∧ ((add_chunks st kb_id chunks embeddings document_id now).chunks.drop
          st.chunks.length).map (fun c => c.content)
        = (chunks.take embeddings.length).map (fun c => c.chunk_content)
    ∧ ((add_chunks st kb_id chunks embeddings document_id now).chunks.drop
          st.chunks.length).map (fun c => c.embedding)
        = embeddings.take chunks.length := by
  refine ⟨?_, ?_, ?_⟩
  · simp [add_chunks, mkChunkRows_length, List.length_zip]
  · simp only [add_chunks, List.drop_left, mkChunkRows_map_content]
    exact zip_map_fst_take _ chunks embeddings
  · simp only [add_chunks, List.drop_left, mkChunkRows_map_embedding]
    simpa using zip_map_snd_take (id : List ℝ → List ℝ) chunks embeddings

/-- Witness for C10: two chunks, one embedding — exactly one pair persisted. -/
theorem add_chunks_length_mismatch_witness :
    (add_chunks ⟨[], [], 0⟩ 7 [⟨"a", "m"⟩, ⟨"b", "m"⟩] [[(2 : ℝ)]] none 3).chunks.length
        = 0 + min 2 1
    ∧ ((add_chunks ⟨[], [], 0⟩ 7 [⟨"a", "m"⟩, ⟨"b", "m"⟩] [[(2 : ℝ)]] none 3).chunks.drop
          0).map (fun c => c.content) = ["a"]
    ∧ ((add_chunks ⟨[], [], 0⟩ 7 [⟨"a", "m"⟩, ⟨"b", "m"⟩] [[(2 : ℝ)]] none 3).chunks.drop
          0).map (fun c => c.embedding) = [[(2 : ℝ)]] :=
  add_chunks_length_mismatch ⟨[], [], 0⟩ 7 [⟨"a", "m"⟩, ⟨"b", "m"⟩] [[(2 : ℝ)]] none 3
    (by decide)

/-- C2 counterexample: the claim says an unknown `kbId` makes
`get_knowledge_base_by_id` yield a NotFound *error* rather than a normal
empty/null result.  In the code, `.first()` on the empty query result returns
`None` — a normal null result, not an error: on the empty store, id `42`
yields `none` (while `similarity_search` indeed yields `[]`). -/
theorem get_knowledge_base_unknown_cex :
    get_knowledge_base_by_id ⟨[], [], 0⟩ 42 = none
    ∧ similarity_search none ⟨[], [], 0⟩ [(1 : ℝ), 0] 42 5 = [] :=
  ⟨rfl, rfl⟩

/-- C2 amended: for a `kbId` that identifies no stored knowledge base,
`similarity_search` (on a cache miss) returns the empty list and cannot raise
(it is total), and `get_knowledge_base_by_id` returns `None` — a normal null
result, not a NotFound error. -/
theorem unknown_kb_semantics (st : DBState) (q : List ℝ) (kb_id top_k : Nat)
    (hc : ∀ c ∈ st.chunks, c.kb_id ≠ kb_id) (hk : ∀ r ∈ st.kbs, r.id ≠ kb_id) :
    similarity_search none st q kb_id top_k = []
    ∧ get_knowledge_base_by_id st kb_id = none := by
  constructor
  · have hfil : st.chunks.filter (fun c => c.kb_id == kb_id) = [] := by
      simp only [List.filter_eq_nil_iff]
      intro c hcmem
      simpa using hc c hcmem
    simp [similarity_search, simSearchCore, hfil]
  · have hfil : st.kbs.filter (fun r => r.id == kb_id) = [] := by
      simp only [List.filter_eq_nil_iff]
      intro r hrmem
      simpa using hk r hrmem
    simp [get_knowledge_base_by_id, hfil]

/-- C3 (code bug): the spec says `split_long_text` terminates on every
input with `max_length > 0`.  It does not: a single paragraph longer than
`max_length` that contains no blank-line separator is recursively re-split
into itself, so the recursion never makes progress.  Formally: no recursion
depth whatsoever suffices for the input `"aaaaaa"` with `max_length = 5`
(in Python the call crashes with `RecursionError`). -/
theorem split_long_text_diverges :
    ∀ fuel : Nat, split_long_text fuel "aaaaaa" 5 = none := by
  intro fuel
  induction fuel with
  | zero => rfl
  | succ n ih =>
    have h : split_long_text (n + 1) "aaaaaa" 5
        = match split_long_text n "aaaaaa" 5 with
          | none => none
          | some subs => goParas (splitLongTextAux n 5) 5 [] ([] ++ subs) [] := rfl
    rw [h, ih]

/-- C8 counterexample: the claim says no output chunk of
`split_long_text` is ever the empty string.  For the input `"aaaa"` with
`max_length = 5`, the single 4-character paragraph triggers
`len(current_chunk) + len(para) + 2 > max_length` while `current_chunk` is
still empty, and line 62 appends `"".strip()`: the output is `["", "aaaa"]`,
which contains the empty string. -/
theorem split_long_text_empty_chunk_cex :
    split_long_text 1 "aaaa" 5 = some [[], "aaaa".toList]
    ∧ ([] : List Char) ∈ ((split_long_text 1 "aaaa" 5).getD []) :=
  ⟨rfl, by decide⟩

/-- C8 amended: empty (or all-whitespace) input yields an empty
sequence; but an output chunk *can* be the empty string — the splitter
appends the stripped `current_chunk` even when it is empty whenever a
paragraph of length `max_length - 1` or `max_length` arrives while
`current_chunk` is empty. -/
theorem split_long_text_empty_input (fuel maxLength : Nat) (text : String)
    (h : pyStrip text.toList = []) :
    split_long_text (fuel + 1) text maxLength = some [] := by
  unfold split_long_text splitLongTextAux
  rw [h]
  rfl

/-- Witness for the amended C8 on concrete all-whitespace input. -/
theorem split_long_text_empty_input_witness :
    split_long_text 1 "  \n " 5 = some [] :=
  split_long_text_empty_input 0 5 "  \n " (by decide)

theorem lookupLoop_succ (cache : EmbCache) :
    ∀ (ts : List String) (j : Nat),
      lookupLoop cache (j + 1) ts
        = ((lookupLoop cache j ts).1,
           (lookupLoop cache j ts).2.map fun p => (p.1 + 1, p.2))
  | [], _ => rfl
  | t :: ts, j => by
    simp only [lookupLoop, lookupLoop_succ cache ts (j + 1)]
    cases cache t with
    | none => simp
    | some v => by_cases hv : v.isEmpty <;> simp [hv]

theorem mergeLoop_cons (i : Nat) (v : List ℝ) (rest : List (Nat × List ℝ))
    (base : List (List ℝ)) :
    mergeLoop ((i, v) :: rest) base = mergeLoop rest (base.insertIdx i v) :=
  rfl

theorem mergeLoop_shift :
    ∀ (pairs : List (Nat × List ℝ)) (x : List ℝ) (base : List (List ℝ)),
      mergeLoop (pairs.map fun p => (p.1 + 1, p.2)) (x :: base)
        = x :: mergeLoop pairs base
  | [], _, _ => rfl
  | (i, v) :: rest, x, base => by
    simp only [List.map_cons, mergeLoop_cons]
    rw [List.insertIdx_succ_cons]
    exact mergeLoop_shift rest x (base.insertIdx i v)

theorem zip_map_same {α β γ : Type} (f : α → β) (g : α → γ) :
    ∀ l : List α, (l.map f).zip (l.map g) = l.map fun a => (f a, g a)
  | [] => rfl
  | x :: xs => by simp [zip_map_same f g xs]

/-- Correctness of the cache-hit / fresh-embedding merge: inserting the fresh
embeddings at their recorded uncached indices, in ascending order, into the
list of cache hits reconstructs the embeddings of the batch in input order
(when every cached vector is the text's true embedding). -/
theorem lookup_merge (embed : String → List ℝ) (cache : EmbCache)
    (hcoh : ∀ t v, cache t = some v → v = embed t) :
    ∀ ts : List String,
      mergeLoop ((lookupLoop cache 0 ts).2.map fun p => (p.1, embed p.2))
          (lookupLoop cache 0 ts).1
        = ts.map embed
  | [] => rfl
  | t :: ts => by
    have ih := lookup_merge embed cache hcoh ts
    have hcomm : ((lookupLoop cache 0 ts).2.map fun p => ((p.1 : Nat) + 1, p.2)).map
          (fun p => (p.1, embed p.2))
        = ((lookupLoop cache 0 ts).2.map fun p => ((p.1 : Nat), embed p.2)).map
          fun p => (p.1 + 1, p.2) := by
      simp only [List.map_map]
      rfl
    simp only [lookupLoop, lookupLoop_succ cache ts 0]
    cases hct : cache t with
    | none =>
      simp only [List.map_cons, mergeLoop_cons]
      rw [show ((lookupLoop cache 0 ts).1.insertIdx 0 (embed t))
            = embed t :: (lookupLoop cache 0 ts).1 from rfl]
      rw [hcomm, mergeLoop_shift, ih]
    | some v =>
      by_cases hv : v.isEmpty
      · simp only [hv, if_true]
        simp only [List.map_cons, mergeLoop_cons]
        rw [show ((lookupLoop cache 0 ts).1.insertIdx 0 (embed t))
              = embed t :: (lookupLoop cache 0 ts).1 from rfl]
        rw [hcomm, mergeLoop_shift, ih]
      · simp only [hv, Bool.false_eq_true, if_false]
        rw [hcomm, mergeLoop_shift, ih, hcoh t v hct]
        exact (List.map_cons embed t ts).symm

/-- A batch's returned embeddings are its texts' embeddings in input order,
whenever every cached vector is its text's true embedding. -/
theorem processBatch_fst (embed : String → List ℝ) (cache : EmbCache)
    (batch : List String) (hcoh : ∀ t v, cache t = some v → v = embed t) :
    (processBatch embed cache batch).1 = batch.map embed := by
  have hmerge := lookup_merge embed cache hcoh batch
  unfold processBatch
  by_cases hm : ((lookupLoop cache 0 batch).2.map fun p => p.2).isEmpty
  · have h2 : (lookupLoop cache 0 batch).2 = [] := by
      cases h : (lookupLoop cache 0 batch).2 <;> simp [h] at hm ⊢
    rw [h2] at hmerge
    simpa [hm, h2, mergeLoop] using hmerge
  · simp only [hm, Bool.false_eq_true, if_false]
    have hz : ((lookupLoop cache 0 batch).2.map fun p => p.1).zip
          (((lookupLoop cache 0 batch).2.map fun p => p.2).map embed)
        = (lookupLoop cache 0 batch).2.map fun p => (p.1, embed p.2) := by
      rw [List.map_map]
      exact zip_map_same _ _ _
    rw [hz]
    exact hmerge

/-- Processing a batch preserves cache coherence: every vector stored in the
updated cache is its text's embedding. -/
theorem processBatch_coh (embed : String → List ℝ) (cache : EmbCache)
    (batch : List String) (hcoh : ∀ t v, cache t = some v → v = embed t) :
    ∀ t v, (processBatch embed cache batch).2.1 t = some v → v = embed t := by
  unfold processBatch
  by_cases hm : ((lookupLoop cache 0 batch).2.map fun p => p.2).isEmpty
  · simpa [hm] using hcoh
  · simp only [hm, Bool.false_eq_true, if_false]
    intro t v h
    have h2 : (if t ∈ (lookupLoop cache 0 batch).2.map (fun p => p.2)
        then some (embed t) else cache t) = some v := h
    by_cases ht : t ∈ (lookupLoop cache 0 batch).2.map fun p => p.2
    · rw [if_pos ht] at h2
      exact (Option.some_inj.mp h2).symm
    · rw [if_neg ht] at h2
      exact hcoh t v h2

/-- The uncached texts of a batch form a sublist of the batch. -/
theorem lookupLoop_misses_sublist (cache : EmbCache) :
    ∀ (j : Nat) (ts : List String),
      List.Sublist ((lookupLoop cache j ts).2.map fun p => p.2) ts
  | _, [] => List.Sublist.slnil
  | j, t :: ts => by
    simp only [lookupLoop]
    cases cache t with
    | none =>
      exact List.Sublist.cons₂ t (lookupLoop_misses_sublist cache (j + 1) ts)
    | some v =>
      by_cases hv : v.isEmpty
      · simpa [hv] using List.Sublist.cons₂ t (lookupLoop_misses_sublist cache (j + 1) ts)
      · simpa [hv] using List.Sublist.cons t (lookupLoop_misses_sublist cache (j + 1) ts)

/-- Texts are sent to the capability at most once per occurrence in a batch. -/
theorem processBatch_called_count (embed : String → List ℝ) (cache : EmbCache)
    (batch : List String) (t : String) :
    (processBatch embed cache batch).2.2.count t ≤ batch.count t := by
  unfold processBatch
  by_cases hm : ((lookupLoop cache 0 batch).2.map fun p => p.2).isEmpty
  · simp [hm]
  · simp only [hm, Bool.false_eq_true, if_false]
    exact (lookupLoop_misses_sublist cache 0 batch).count_le t

theorem toBatchesGo_flatten :
    ∀ (fuel : Nat) (l : List String), (toBatchesGo fuel l).flatten = l
  | fuel, [] => by cases fuel <;> rfl
  | 0, x :: xs => by simp [toBatchesGo]
  | fuel + 1, x :: xs => by
    simp only [toBatchesGo, List.flatten_cons]
    rw [toBatchesGo_flatten fuel ((x :: xs).drop 32)]
    exact List.take_append_drop 32 (x :: xs)

theorem embedDocsLoop_fst (embed : String → List ℝ) :
    ∀ (bs : List (List String)) (cache : EmbCache),
      (∀ t v, cache t = some v → v = embed t) →
      (embedDocsLoop embed bs cache).1 = bs.flatten.map embed
  | [], _, _ => rfl
  | b :: bs, cache, hcoh => by
    simp only [embedDocsLoop, List.flatten_cons, List.map_append]
    rw [processBatch_fst embed cache b hcoh,
      embedDocsLoop_fst embed bs _ (processBatch_coh embed cache b hcoh)]

theorem embedDocsLoop_count (embed : String → List ℝ) :
    ∀ (bs : List (List String)) (cache : EmbCache) (t : String),
      (embedDocsLoop embed bs cache).2.count t ≤ bs.flatten.count t
  | [], _, _ => Nat.le_refl 0
  | b :: bs, cache, t => by
    simp only [embedDocsLoop, List.flatten_cons, List.count_append]
    exact Nat.add_le_add (processBatch_called_count embed cache b t)
      (embedDocsLoop_count embed bs _ t)

/-- The returned embedding list of `embed_documents` is the input texts'
embeddings in input order (shared helper for the batch-merge claims). -/
theorem embed_documents_fst (embed : String → List ℝ) (cache : EmbCache)
    (texts : List String) (hcoh : ∀ t v, cache t = some v → v = embed t) :
    (embed_documents embed cache texts).1 = texts.map embed := by
  unfold embed_documents
  by_cases h : texts.isEmpty
  · have : texts = [] := by
      cases texts with
      | nil => rfl
      | cons x xs => simp at h
    simp [h, this]
  · rw [if_neg (by simp [h]), embedDocsLoop_fst embed (toBatches texts) cache hcoh,
      toBatches, toBatchesGo_flatten]

/-- Every text is sent to the external capability at most once per occurrence
in the input (shared helper). -/
theorem embed_documents_count (embed : String → List ℝ) (cache : EmbCache)
    (texts : List String) (t : String) :
    (embed_documents embed cache texts).2.count t ≤ texts.count t := by
  unfold embed_documents
  by_cases h : texts.isEmpty
  · simp [h]
  · rw [if_neg (by simp [h])]
    calc (embedDocsLoop embed (toBatches texts) cache).2.count t
        ≤ (toBatches texts).flatten.count t := embedDocsLoop_count embed (toBatches texts) cache t
      _ = texts.count t := by rw [toBatches, toBatchesGo_flatten]

/-- C5: `embed_documents` merges cache hits and freshly computed entries
back into their original positions: for every cache (i.e. every partition of
the input into hits and misses) whose stored vectors are the texts' true
embeddings, the result has the input's length and its i-th entry is the
embedding of the i-th input text. -/
theorem embed_documents_order_preserved (embed : String → List ℝ)
    (cache : EmbCache) (texts : List String)
    (hcoh : ∀ t v, cache t = some v → v = embed t) :
    (embed_documents embed cache texts).1.length = texts.length
    ∧ (embed_documents embed cache texts).1 = texts.map embed := by
  have h := embed_documents_fst embed cache texts hcoh
  exact ⟨by rw [h, List.length_map], h⟩

/-- Witness for C5: a three-element batch with a duplicate against a cache
that holds `"yz"` (hit) but misses the rest. -/
theorem embed_documents_order_preserved_witness :
    (embed_documents (fun t => [(t.length : ℝ)])
        (fun t => if t = "yz" then some [(2 : ℝ)] else none) ["x", "yz", "x"]).1.length
      = (["x", "yz", "x"] : List String).length
    ∧ (embed_documents (fun t => [(t.length : ℝ)])
        (fun t => if t = "yz" then some [(2 : ℝ)] else none) ["x", "yz", "x"]).1
      = (["x", "yz", "x"] : List String).map fun t => [(t.length : ℝ)] :=
  embed_documents_order_preserved (fun t => [(t.length : ℝ)])
    (fun t => if t = "yz" then some [(2 : ℝ)] else none) ["x", "yz", "x"]
    (by
      intro t v h
      have h2 : (if t = "yz" then some [(2 : ℝ)] else none) = some v := h
      by_cases ht : t = "yz"
      · rw [if_pos ht] at h2
        subst ht
        rw [← Option.some_inj.mp h2]
        norm_num [(show ("yz".length : Nat) = 2 by decide)]
      · rw [if_neg ht] at h2
        exact absurd h2 (by simp))

/-- C4 counterexample: the claim says the external capability is invoked
at most once per distinct text in a call.  With an empty cache, the input
`["a", "a"]` puts both (identical) texts into `uncached_texts` of the same
batch, and both are sent to `self._model.encode`: the text `"a"` is sent
twice. -/
theorem embed_documents_duplicate_sent_twice_cex :
    (embed_documents (fun _ => [(1 : ℝ)]) (fun _ => none) ["a", "a"]).2 = ["a", "a"]
    ∧ (embed_documents (fun _ => [(1 : ℝ)]) (fun _ => none) ["a", "a"]).2.count "a" = 2 :=
  ⟨rfl, by rfl⟩

/-- C4 amended: on a list with duplicates (against a coherent cache) the
result has the input's length and entries for equal texts are identical
vectors; but the capability is only invoked at most once per *occurrence* of a
text — duplicate texts that miss the cache within one batch of 32 are each
sent to the capability (only occurrences in later batches are served from the
cache written by earlier ones). -/
theorem embed_documents_dedup (embed : String → List ℝ) (cache : EmbCache)
    (texts : List String) (hcoh : ∀ t v, cache t = some v → v = embed t) :
    (embed_documents embed cache texts).1.length = texts.length
    ∧ (embed_documents embed cache texts).1 = texts.map embed
    ∧ ∀ t, (embed_documents embed cache texts).2.count t ≤ texts.count t := by
  have h := embed_documents_fst embed cache texts hcoh
  exact ⟨by rw [h, List.length_map], h, fun t => embed_documents_count embed cache texts t⟩

/-- Witness for the amended C4 at a concrete input with a duplicate and empty
cache. -/
theorem embed_documents_dedup_witness :
    (embed_documents (fun _ => [(3 : ℝ)]) (fun _ => none) ["a", "b", "a"]).1.length
      = (["a", "b", "a"] : List String).length
    ∧ (embed_documents (fun _ => [(3 : ℝ)]) (fun _ => none) ["a", "b", "a"]).1
      = ((["a", "b", "a"] : List String).map fun _ => [(3 : ℝ)])
    ∧ ∀ t, (embed_documents (fun _ => [(3 : ℝ)]) (fun _ => none) ["a", "b", "a"]).2.count t
      ≤ (["a", "b", "a"] : List String).count t :=
  embed_documents_dedup (fun _ => [(3 : ℝ)]) (fun _ => none) ["a", "b", "a"]
    (by intro t v h; exact absurd h (by simp))

theorem filter_map_comm {α β : Type} (f : α → β) (p : β → Bool) :
    ∀ l : List α, (l.map f).filter p = (l.filter fun a => p (f a)).map f
  | [] => rfl
  | x :: xs => by
    by_cases h : p (f x) <;> simp [h, filter_map_comm f p xs]

/-- The function `orderedInsert` commutes with `map` when the relation is transported. -/
theorem orderedInsert_map_rel {α β : Type} (f : α → β) (r : α → α → Prop)
    (s' : β → β → Prop) [DecidableRel r] [DecidableRel s']
    (hiff : ∀ a b, s' (f a) (f b) ↔ r a b) (a : α) :
    ∀ l : List α, List.orderedInsert s' (f a) (l.map f) = (List.orderedInsert r a l).map f
  | [] => rfl
  | b :: l => by
    simp only [List.map_cons, List.orderedInsert]
    by_cases h : r a b
    · rw [if_pos ((hiff a b).mpr h), if_pos h, List.map_cons, List.map_cons]
    · rw [if_neg (fun hs => h ((hiff a b).mp hs)), if_neg h, List.map_cons,
        orderedInsert_map_rel f r s' hiff a l]

/-- The function `insertionSort` commutes with `map` when the relation is transported. -/
theorem insertionSort_map_rel {α β : Type} (f : α → β) (r : α → α → Prop)
    (s' : β → β → Prop) [DecidableRel r] [DecidableRel s']
    (hiff : ∀ a b, s' (f a) (f b) ↔ r a b) :
    ∀ l : List α, List.insertionSort s' (l.map f) = (List.insertionSort r l).map f
  | [] => rfl
  | a :: l => by
    simp only [List.map_cons, List.insertionSort]
    rw [insertionSort_map_rel f r s' hiff l,
      orderedInsert_map_rel f r s' hiff a (List.insertionSort r l)]

/-- Stability of `orderedInsert` for the score-descending order on pairs:
filtering at a fixed score `s` sees the inserted element first when its score
is `s` (it is inserted before every element of score `≤` its own), and is
otherwise unaffected. -/
theorem filter_orderedInsert_snd {γ : Type} (s : ℝ) (x : γ × ℝ) :
    ∀ l : List (γ × ℝ),
      (List.orderedInsert (fun a b : γ × ℝ => b.2 ≤ a.2) x l).filter
          (fun p => decide (p.2 = s))
        = if x.2 = s then x :: l.filter (fun p => decide (p.2 = s))
          else l.filter (fun p => decide (p.2 = s))
  | [] => by
    by_cases h : x.2 = s <;> simp [List.orderedInsert, h]
  | y :: ys => by
    simp only [List.orderedInsert]
    by_cases hxy : y.2 ≤ x.2
    · rw [if_pos hxy]
      by_cases hx : x.2 = s <;> simp [List.filter_cons, hx]
    · rw [if_neg hxy]
      have ih := filter_orderedInsert_snd s x ys
      by_cases hx : x.2 = s
      · have hy : ¬y.2 = s := fun hy => hxy (le_of_eq (hy.trans hx.symm))
        rw [if_pos hx] at ih
        simp [List.filter_cons, hy, hx, ih]
      · rw [if_neg hx] at ih
        simp only [if_neg hx]
        by_cases hy : y.2 = s <;> simp [List.filter_cons, hy, ih]

/-- Stability of the stable descending sort: filtering the sorted list at any
fixed score gives exactly the equal-score elements in their original order. -/
theorem filter_insertionSort_snd {γ : Type} (s : ℝ) :
    ∀ l : List (γ × ℝ),
      (List.insertionSort (fun a b : γ × ℝ => b.2 ≤ a.2) l).filter
          (fun p => decide (p.2 = s))
        = l.filter (fun p => decide (p.2 = s))
  | [] => rfl
  | x :: xs => by
    simp only [List.insertionSort]
    rw [filter_orderedInsert_snd s x _, filter_insertionSort_snd s xs]
    by_cases hx : x.2 = s <;> simp [List.filter_cons, hx]

/-- The score expression written in `hybrid_search` equals the spec's
formula `0.7 × cosineSimilarity + 0.3 × keywordScore`. -/
theorem hybrid_code_score_eq_spec (q : List ℝ) (kw : String) (c : ChunkRow) :
    cosine_similarity q c.embedding * 0.7
        + (if containsCI kw c.content then (1 : ℝ) else 0) * 0.3
      = hybridScoreSpec q kw c := by
  unfold hybridScoreSpec
  ring

/-- Every scored pair built by the search scans carries the score of its
result dict. -/
theorem simScore_mem (q : List ℝ) (l : List ChunkRow) :
    ∀ p ∈ l.map fun c => (chunkToResult c, cosine_similarity q c.embedding),
      p.2 = resultSimScore q p.1 := by
  intro p hp
  obtain ⟨c, _, rfl⟩ := List.mem_map.mp hp
  rfl

/-- C6: on a cache miss, `similarity_search` returns exactly
`min(topK, n)` results (never more than `topK`; all `n` when `n < topK`),
sorted in descending order of cosine similarity to the query vector, and
equal-similarity chunks keep their original retrieval order: for every score
`s`, the returned results of score `s` are a sublist of the retrieved chunks
of score `s` in retrieval order. -/
theorem similarity_search_ranking (st : DBState) (q : List ℝ) (kb_id top_k : Nat) :
    (similarity_search none st q kb_id top_k).length
        = min top_k (st.chunks.filter fun c => c.kb_id == kb_id).length
    ∧ (similarity_search none st q kb_id top_k).Pairwise
        (fun a b => resultSimScore q b ≤ resultSimScore q a)
    ∧ ∀ s : ℝ,
        List.Sublist
          ((similarity_search none st q kb_id top_k).filter
            fun x => decide (resultSimScore q x = s))
          (((st.chunks.filter fun c => c.kb_id == kb_id).map chunkToResult).filter
            fun x => decide (resultSimScore q x = s)) := by
  classical
  have hss : similarity_search none st q kb_id top_k
      = ((List.insertionSort (fun a b : ChunkResult × ℝ => b.2 ≤ a.2)
            ((st.chunks.filter fun c => c.kb_id == kb_id).map fun c =>
              (chunkToResult c, cosine_similarity q c.embedding))).take top_k).map
          (fun p => p.1) := rfl
  haveI : IsTotal (ChunkResult × ℝ) (fun a b => b.2 ≤ a.2) := ⟨fun a b => le_total b.2 a.2⟩
  haveI : IsTrans (ChunkResult × ℝ) (fun a b => b.2 ≤ a.2) :=
    ⟨fun _ _ _ hab hbc => le_trans hbc hab⟩
  have hsorted := List.sorted_insertionSort (fun a b : ChunkResult × ℝ => b.2 ≤ a.2)
    ((st.chunks.filter fun c => c.kb_id == kb_id).map fun c =>
      (chunkToResult c, cosine_similarity q c.embedding))
  have hmemS : ∀ p ∈ List.insertionSort (fun a b : ChunkResult × ℝ => b.2 ≤ a.2)
      ((st.chunks.filter fun c => c.kb_id == kb_id).map fun c =>
        (chunkToResult c, cosine_similarity q c.embedding)),
      p.2 = resultSimScore q p.1 := by
    intro p hp
    exact simScore_mem q _ p ((List.mem_insertionSort _).mp hp)
  refine ⟨?_, ?_, ?_⟩
  · rw [hss]
    rw [List.length_map, List.length_take,
      (List.perm_insertionSort (fun a b : ChunkResult × ℝ => b.2 ≤ a.2) _).length_eq,
      List.length_map]
  · rw [hss, List.pairwise_map]
    have htake := hsorted.sublist (List.take_sublist top_k _)
    refine htake.imp_of_mem ?_
    intro a b ha hb hab
    have hamem := (List.take_sublist top_k _).subset ha
    have hbmem := (List.take_sublist top_k _).subset hb
    rw [← hmemS a hamem, ← hmemS b hbmem]
    exact hab
  · intro s
    rw [hss, filter_map_comm]
    have hRHS : ((st.chunks.filter fun c => c.kb_id == kb_id).map chunkToResult)
        = ((st.chunks.filter fun c => c.kb_id == kb_id).map fun c =>
            (chunkToResult c, cosine_similarity q c.embedding)).map (fun p => p.1) := by
      rw [List.map_map]
      rfl
    rw [hRHS, filter_map_comm]
    apply List.Sublist.map
    have hcongr1 : (((List.insertionSort (fun a b : ChunkResult × ℝ => b.2 ≤ a.2)
          ((st.chunks.filter fun c => c.kb_id == kb_id).map fun c =>
            (chunkToResult c, cosine_similarity q c.embedding))).take top_k).filter
          fun a => decide (resultSimScore q a.1 = s))
        = (((List.insertionSort (fun a b : ChunkResult × ℝ => b.2 ≤ a.2)
          ((st.chunks.filter fun c => c.kb_id == kb_id).map fun c =>
            (chunkToResult c, cosine_similarity q c.embedding))).take top_k).filter
          fun a => decide (a.2 = s)) := by
      apply List.filter_congr
      intro a ha
      rw [hmemS a ((List.take_sublist top_k _).subset ha)]
    have hcongr2 : (((st.chunks.filter fun c => c.kb_id == kb_id).map fun c =>
          (chunkToResult c, cosine_similarity q c.embedding)).filter
          fun a => decide (a.2 = s))
        = (((st.chunks.filter fun c => c.kb_id == kb_id).map fun c =>
          (chunkToResult c, cosine_similarity q c.embedding)).filter
          fun a => decide (resultSimScore q a.1 = s)) := by
      apply List.filter_congr
      intro a ha
      rw [simScore_mem q _ a ha]
    rw [hcongr1, ← hcongr2,
      ← filter_insertionSort_snd s
        ((st.chunks.filter fun c => c.kb_id == kb_id).map fun c =>
          (chunkToResult c, cosine_similarity q c.embedding))]
    exact List.Sublist.filter _ (List.take_sublist top_k _)

/-- C7: every chunk considered by `hybrid_search` is ranked by
`0.7 × cosineSimilarity + 0.3 × keywordScore` with `keywordScore = 1.0`
exactly when the keyword is a case-insensitive substring of the chunk content
and `0.0` otherwise (the spec-side formula `hybridScoreSpec`): the result is
the stable descending sort of the knowledge base's chunks by that score,
truncated to `topK` — in particular it is sorted descending by the score and
has exactly `min(topK, n)` entries. -/
theorem hybrid_search_ranking (st : DBState) (q : List ℝ) (kw : String)
    (kb_id top_k : Nat) :
    hybrid_search st q kw kb_id top_k
        = ((List.insertionSort
              (fun a b : ChunkRow => hybridScoreSpec q kw b ≤ hybridScoreSpec q kw a)
              (st.chunks.filter fun c => c.kb_id == kb_id)).take top_k).map chunkToResult
    ∧ (hybrid_search st q kw kb_id top_k).Pairwise
        (fun a b => resultHybridScore q kw b ≤ resultHybridScore q kw a)
    ∧ (hybrid_search st q kw kb_id top_k).length
        = min top_k (st.chunks.filter fun c => c.kb_id == kb_id).length := by
  classical
  have hiff : ∀ a b : ChunkRow,
      (fun x y : ChunkResult × ℝ => y.2 ≤ x.2)
          ((fun c => (chunkToResult c,
            cosine_similarity q c.embedding * 0.7
              + (if containsCI kw c.content then (1 : ℝ) else 0) * 0.3)) a)
          ((fun c => (chunkToResult c,
            cosine_similarity q c.embedding * 0.7
              + (if containsCI kw c.content then (1 : ℝ) else 0) * 0.3)) b)
        ↔ hybridScoreSpec q kw b ≤ hybridScoreSpec q kw a := by
    intro a b
    simp only [hybrid_code_score_eq_spec]
  have hmain : hybrid_search st q kw kb_id top_k
      = ((List.insertionSort
            (fun a b : ChunkRow => hybridScoreSpec q kw b ≤ hybridScoreSpec q kw a)
            (st.chunks.filter fun c => c.kb_id == kb_id)).take top_k).map chunkToResult := by
    show ((List.insertionSort (fun a b : ChunkResult × ℝ => b.2 ≤ a.2)
          ((st.chunks.filter fun c => c.kb_id == kb_id).map fun c =>
            (chunkToResult c,
              cosine_similarity q c.embedding * 0.7
                + (if containsCI kw c.content then (1 : ℝ) else 0) * 0.3))).take
          top_k).map (fun p => p.1) = _
    rw [insertionSort_map_rel _
        (fun a b : ChunkRow => hybridScoreSpec q kw b ≤ hybridScoreSpec q kw a)
        (fun a b : ChunkResult × ℝ => b.2 ≤ a.2) hiff]
    rw [← List.map_take, List.map_map]
    rfl
  haveI : IsTotal ChunkRow
      (fun a b => hybridScoreSpec q kw b ≤ hybridScoreSpec q kw a) :=
    ⟨fun a b => le_total _ _⟩
  haveI : IsTrans ChunkRow
      (fun a b => hybridScoreSpec q kw b ≤ hybridScoreSpec q kw a) :=
    ⟨fun _ _ _ hab hbc => le_trans hbc hab⟩
  have hsorted := List.sorted_insertionSort
    (fun a b : ChunkRow => hybridScoreSpec q kw b ≤ hybridScoreSpec q kw a)
    (st.chunks.filter fun c => c.kb_id == kb_id)
  refine ⟨hmain, ?_, ?_⟩
  · rw [hmain, List.pairwise_map]
    exact (hsorted.sublist (List.take_sublist top_k _)).imp_of_mem
      (fun {a b} _ _ hab => hab)
  · rw [hmain, List.length_map, List.length_take,
      (List.perm_insertionSort
        (fun a b : ChunkRow => hybridScoreSpec q kw b ≤ hybridScoreSpec q kw a) _).length_eq]

/-- Witness for the amended C2 on a concrete store that does not contain
knowledge base `42`. -/
theorem unknown_kb_semantics_witness :
    similarity_search none ⟨[⟨1, 1, "kb", "it", none, 0⟩], [], 0⟩ [(1 : ℝ)] 42 5 = []
    ∧ get_knowledge_base_by_id ⟨[⟨1, 1, "kb", "it", none, 0⟩], [], 0⟩ 42 = none :=
  unknown_kb_semantics ⟨[⟨1, 1, "kb", "it", none, 0⟩], [], 0⟩ [(1 : ℝ)] 42 5
    (by simp) (by simp)

end AiMentor
